import Mathlib

/-!
Verification development for the Solana vault custody engine that the
repository's client scripts (`client_devnet.py`, `client_example.py`,
`client_multiuser_example.py`, `test_devnet_detailed.py`) drive over RPC.
The on-chain transaction engine itself is referenced but not shipped with
the clients, so its state machine is modelled here from the specification;
the pure client-side logic (balance decoding, the "already in use"
idempotent skip) is translated directly from the Python sources.
-/

namespace VaultProgram

/-- Modelled from the spec: the per-depositor sub-ledger record
`UserVaultAccount{owner, current_balance:u64, total_deposited:u64,
total_withdrawn:u64, bump:u8}` (spec §3, §6).  The on-chain program owning
this record is not part of the source set; the clients fetch and display
these exact fields.  Amounts are exact integers in the smallest currency
unit, as the spec requires ("integer, no floating point"). -/
structure UserVaultAccount where
  owner : Nat
  current_balance : Nat
  total_deposited : Nat
  total_withdrawn : Nat
  bump : Nat
deriving DecidableEq, Repr

/-- Modelled from the spec: the singleton aggregate record
`Vault{authority, total_deposits:u64, bump:u8}` (spec §3, §6). -/
structure Vault where
  authority : Nat
  total_deposits : Nat
  bump : Nat
deriving DecidableEq, Repr

/-- Modelled from the spec: the error taxonomy of §7. -/
inductive VaultError where
  | AlreadyInitialized
  | OwnershipConstraintViolation
  | InsufficientUserBalance
  | AddressDerivationMismatch
deriving DecidableEq, Repr

/-- Modelled from the spec: the persisted ledger state — the optional
singleton `Vault`, the arena of `UserVaultAccount` records keyed by owner
identity (spec §9: "model as an arena keyed by owner identity"), and the
custody account's native balance. -/
structure VaultState where
  vault : Option Vault
  users : List (Nat × UserVaultAccount)
  custody : Nat
deriving DecidableEq, Repr

/-- The ledger before any transaction: no vault record, no user records,
an empty custody account. -/
def initialState : VaultState := ⟨none, [], 0⟩

/-- Association-list lookup in the owner-keyed arena. -/
def lookupUser (us : List (Nat × UserVaultAccount)) (who : Nat) :
    Option UserVaultAccount :=
  match us with
  | [] => none
  | (k, a) :: rest => if k = who then some a else lookupUser rest who

/-- Association-list update (replace in place, or append when absent). -/
def insertUser (us : List (Nat × UserVaultAccount)) (who : Nat)
    (a : UserVaultAccount) : List (Nat × UserVaultAccount) :=
  match us with
  | [] => [(who, a)]
  | (k, b) :: rest =>
      if k = who then (who, a) :: rest else (k, b) :: insertUser rest who a

/-- Modelled from the spec: `initialize_vault(authority_identity)` (§4.2).
Fails with `AlreadyInitialized` when the vault record already exists at
its derived address; otherwise creates it with `total_deposits = 0`. -/
def initialize_vault (st : VaultState) (authority : Nat) :
    Except VaultError VaultState :=
  match st.vault with
  | some _ => .error .AlreadyInitialized
  | none => .ok { st with vault := some ⟨authority, 0, 255⟩ }

/-- Modelled from the spec: `deposit(amount)` (§4.2).  The depositor's
`UserVaultAccount` is created lazily on first deposit (owner = depositor);
`current_balance`, `total_deposited` and `Vault.total_deposits` all grow by
`amount`, and `amount` moves into the custody account.  A request issued
before the vault exists is rejected at account validation
(`AddressDerivationMismatch`), mutating nothing. -/
def deposit (st : VaultState) (depositor amount : Nat) :
    Except VaultError VaultState :=
  match st.vault with
  | none => .error .AddressDerivationMismatch
  | some v =>
      let acct := (lookupUser st.users depositor).getD ⟨depositor, 0, 0, 0, 255⟩
      .ok { vault := some { v with total_deposits := v.total_deposits + amount },
            users := insertUser st.users depositor
              { acct with current_balance := acct.current_balance + amount,
                          total_deposited := acct.total_deposited + amount },
            custody := st.custody + amount }

/-- Modelled from the spec: `withdraw(amount, recipient)` (§4.2).  The
request names a `UserVaultAccount` (identified by its derivation owner
`namedOwner`); account-constraint validation compares the signer against
the record's stored `owner` field before the handler body runs, so an
ownership mismatch fails with `OwnershipConstraintViolation` regardless of
amount, and only then is `amount ≤ current_balance` checked
(`InsufficientUserBalance` otherwise).  On success `current_balance`
shrinks and `total_withdrawn` grows by `amount`, funds leave custody, and
`Vault.total_deposits` is deliberately NOT decremented.  A request naming
a missing vault or user record fails at account validation. -/
def withdraw (st : VaultState) (signer namedOwner amount recipient : Nat) :
    Except VaultError VaultState :=
  match st.vault with
  | none => .error .AddressDerivationMismatch
  | some v =>
      match lookupUser st.users namedOwner with
      | none => .error .AddressDerivationMismatch
      | some acct =>
          if acct.owner ≠ signer then .error .OwnershipConstraintViolation
          else if acct.current_balance < amount then
            .error .InsufficientUserBalance
          else
            .ok { vault := some v,
                  users := insertUser st.users namedOwner
                    { acct with
                        current_balance := acct.current_balance - amount,
                        total_withdrawn := acct.total_withdrawn + amount },
                  custody := st.custody - amount }

/-- Modelled from the spec: the tagged operation enum of §9, dispatched
via a pure function of (operation, current state). -/
inductive Op where
  | initVault (authority : Nat)
  | deposit (depositor : Nat) (amount : Nat)
  | withdraw (signer : Nat) (namedOwner : Nat) (amount : Nat) (recipient : Nat)
deriving DecidableEq, Repr

/-- Dispatch one operation against the ledger. -/
def applyOp (st : VaultState) (op : Op) : Except VaultError VaultState :=
  match op with
  | .initVault a => initialize_vault st a
  | .deposit d amt => deposit st d amt
  | .withdraw s n amt r => withdraw st s n amt r

/-- Atomic commit (spec §5, §7): a failed request leaves every record
byte-for-byte as it was; a successful one commits all its mutations. -/
def step (st : VaultState) (op : Op) : VaultState :=
  match applyOp st op with
  | .ok next => next
  | .error _ => st

/-- Run a whole sequence of requests, each committed atomically. -/
def run (st : VaultState) (ops : List Op) : VaultState :=
  match ops with
  | [] => st
  | op :: rest => run (step st op) rest

/-- The aggregate counter, reading 0 while the vault is uncreated. -/
def vaultTotalDeposits (st : VaultState) : Nat :=
  match st.vault with
  | none => 0
  | some v => v.total_deposits

/-- A user's `current_balance`, 0 when no record exists for them yet. -/
def balanceOf (st : VaultState) (who : Nat) : Nat :=
  match lookupUser st.users who with
  | none => 0
  | some a => a.current_balance

/-- A user's lifetime `total_deposited`, 0 when no record exists. -/
def depositedOf (st : VaultState) (who : Nat) : Nat :=
  match lookupUser st.users who with
  | none => 0
  | some a => a.total_deposited

/-- A user's lifetime `total_withdrawn`, 0 when no record exists. -/
def withdrawnOf (st : VaultState) (who : Nat) : Nat :=
  match lookupUser st.users who with
  | none => 0
  | some a => a.total_withdrawn

/-- Sum a field of every user record in the arena. -/
def sumBy (f : UserVaultAccount → Nat) (us : List (Nat × UserVaultAccount)) :
    Nat :=
  (us.map (fun p => f p.2)).sum

/-- Sum of `total_deposited` over all user records. -/
def sumDeposited (st : VaultState) : Nat :=
  sumBy UserVaultAccount.total_deposited st.users

/-- Sum of `current_balance` over all user records. -/
def sumBalances (st : VaultState) : Nat :=
  sumBy UserVaultAccount.current_balance st.users

/-- Sum of `total_withdrawn` over all user records. -/
def sumWithdrawn (st : VaultState) : Nat :=
  sumBy UserVaultAccount.total_withdrawn st.users

end VaultProgram

namespace Derivation

/-- Byte string of the aggregate-vault seed `b"vault"` used by
`get_vault_pda` in `client_devnet.py` and `client_example.py`. -/
def vaultSeed : List Nat := "vault".data.map Char.toNat

/-- Byte string of the custody-account seed `b"vault_pda"` used by
`get_vault_funds_pda`. -/
def vaultFundsSeed : List Nat := "vault_pda".data.map Char.toNat

/-- Byte string of the per-user seed `b"user_vault"` used in
`client_multiuser_example.py` and `test_devnet_detailed.py`. -/
def userVaultSeed : List Nat := "user_vault".data.map Char.toNat

/-- Domain-separation marker appended by the runtime's program-derived
address construction. -/
def pdaMarker : List Nat := "ProgramDerivedAddress".data.map Char.toNat

/-- Modelled from the spec: a program-derived address.  The hashing
primitive behind `PublicKey.find_program_address` lives in the external
runtime, not in this source set; spec §4.1 requires the derivation to be
pure and collision-free per (seed, program) pair, so the address is
represented by its full derivation preimage, which the assumed
collision-free hash maps 1:1 onto concrete addresses. -/
structure PdaAddress where
  preimage : List Nat
deriving DecidableEq, Repr

/-- Modelled from the spec: `PublicKey.find_program_address(seeds,
program_id)` (spec §4.1; called at `client_devnet.py` lines 98-112 and
`client_multiuser_example.py` lines 66-84).  The seed byte-strings, a bump
nonce and the program identity (plus the domain marker) are marshalled
into the derivation preimage; identical inputs always yield the identical
address and bump. -/
def find_program_address (seeds : List (List Nat)) (programId : List Nat) :
    PdaAddress × Nat :=
  (⟨seeds.flatten ++ [255] ++ programId ++ pdaMarker⟩, 255)

/-- Per-user sub-ledger address: fixed seed `b"user_vault"` followed by
the owner's 32 public identity bytes, exactly as the clients derive it. -/
def user_vault_pda (owner : List Nat) (programId : List Nat) :
    PdaAddress × Nat :=
  find_program_address [userVaultSeed, owner] programId

end Derivation

namespace DevnetVaultClient

/-- `DevnetVaultClient.get_vault_balance` (`client_devnet.py` lines
235-253; `VaultClient.get_vault_balance` in `client_example.py` lines
191-211 is the same computation): the RPC account lookup yields either no
account (`None`) or a lamport count; the function returns 0 for a missing
account and otherwise lamports divided by 1e9, as an exact rational since
the conversion is a pure scaling. -/
def get_vault_balance (accountValue : Option Nat) : ℚ :=
  match accountValue with
  | none => 0
  | some lamports => (lamports : ℚ) / 1000000000

/-- Outcome of the underlying `program.rpc["initialize_vault"]` call: a
transaction signature on success, or an exception message on failure. -/
inductive RpcOutcome where
  | success (tx : List Char)
  | failure (message : List Char)
deriving DecidableEq, Repr

/-- Whether the second character list starts with the first. -/
def headMatches : List Char → List Char → Bool
  | [], _ => true
  | _ :: _, [] => false
  | a :: as, b :: bs => a == b && headMatches as bs

/-- Whether the first character list occurs inside the second (Python's
`needle in haystack` on strings). -/
def containsSub (needle : List Char) : List Char → Bool
  | [] => headMatches needle []
  | c :: rest => headMatches needle (c :: rest) || containsSub needle rest

/-- The substring tested by the client's exception handler. -/
def alreadyInUseMsg : List Char := "already in use".data

/-- `DevnetVaultClient.initialize_vault` error handling (`client_devnet.py`
lines 134-156): a successful RPC call returns its transaction signature;
an exception whose text contains "already in use" is swallowed and `None`
is returned; any other exception is re-raised unchanged. -/
def initialize_vault (outcome : RpcOutcome) :
    Except (List Char) (Option (List Char)) :=
  match outcome with
  | .success tx => .ok (some tx)
  | .failure m =>
      if containsSub alreadyInUseMsg m then .ok none else .error m

end DevnetVaultClient

namespace VaultProgram

/-- Per-account ledger equation (spec §3): the withdrawable balance plus
everything ever withdrawn equals everything ever deposited, stated
additively so that it is meaningful over the naturals. -/
def AcctOk (a : UserVaultAccount) : Prop :=
  a.current_balance + a.total_withdrawn = a.total_deposited

/-- Ledger invariant: every user record satisfies its ledger equation and
the aggregate counter equals the sum of lifetime deposits. -/
def Inv (st : VaultState) : Prop :=
  (∀ p ∈ st.users, AcctOk p.2) ∧ vaultTotalDeposits st = sumDeposited st

/-- A concrete initialized ledger holding one sub-account: user 1 has
deposited 5 units and withdrawn nothing. -/
def stOne : VaultState :=
  ⟨some ⟨0, 5, 255⟩, [(1, ⟨1, 5, 5, 0, 255⟩)], 5⟩

/-- The ledger `stOne` after user 1 successfully withdraws 2 units. -/
def stOneAfter : VaultState :=
  ⟨some ⟨0, 5, 255⟩, [(1, ⟨1, 3, 5, 2, 255⟩)], 3⟩

/-- A concrete initialized ledger whose only sub-account belongs to
user 2, with a current balance of 1 unit. -/
def stC2 : VaultState :=
  ⟨some ⟨0, 1, 255⟩, [(2, ⟨2, 1, 1, 0, 255⟩)], 1⟩

/-- Request sequence: initialize the vault, user 1 deposits 5 units and
then withdraws 2 of them. -/
def opsC5 : List Op := [.initVault 0, .deposit 1 5, .withdraw 1 1 2 1]

end VaultProgram

namespace VaultProgram

theorem sumBy_cons (f : UserVaultAccount → Nat) (p : Nat × UserVaultAccount)
    (us : List (Nat × UserVaultAccount)) :
    sumBy f (p :: us) = f p.2 + sumBy f us := by
  simp [sumBy]

theorem lookupUser_mem {us : List (Nat × UserVaultAccount)} {who : Nat}
    {a : UserVaultAccount} (h : lookupUser us who = some a) : (who, a) ∈ us := by
  induction us with
  | nil => simp [lookupUser] at h
  | cons hd tl ih =>
    rcases hd with ⟨k, b⟩
    by_cases hk : k = who
    · subst hk
      simp [lookupUser] at h
      subst h
      exact List.mem_cons_self _ _
    · simp [lookupUser, hk] at h
      exact List.mem_cons_of_mem _ (ih h)

theorem mem_insertUser {us : List (Nat × UserVaultAccount)} {who : Nat}
    {b : UserVaultAccount} {p : Nat × UserVaultAccount}
    (h : p ∈ insertUser us who b) : p = (who, b) ∨ p ∈ us := by
  induction us with
  | nil =>
    simp [insertUser] at h
    simp [h]
  | cons hd tl ih =>
    rcases hd with ⟨k, c⟩
    by_cases hk : k = who
    · subst hk
      simp [insertUser] at h
      rcases h with h | h
      · left; simp [h]
      · right; exact List.mem_cons_of_mem _ h
    · simp [insertUser, hk] at h
      rcases h with h | h
      · right; simp [h]
      · rcases ih h with h1 | h1
        · left; exact h1
        · right; exact List.mem_cons_of_mem _ h1

theorem lookupUser_insertUser_self (us : List (Nat × UserVaultAccount))
    (who : Nat) (b : UserVaultAccount) :
    lookupUser (insertUser us who b) who = some b := by
  induction us with
  | nil => simp [insertUser, lookupUser]
  | cons hd tl ih =>
    rcases hd with ⟨k, c⟩
    by_cases hk : k = who
    · simp [insertUser, hk, lookupUser]
    · simp [insertUser, hk, lookupUser, ih]

theorem lookupUser_insertUser_other (us : List (Nat × UserVaultAccount))
    {who w : Nat} (b : UserVaultAccount) (hw : w ≠ who) :
    lookupUser (insertUser us who b) w = lookupUser us w := by
  induction us with
  | nil => simp [insertUser, lookupUser, Ne.symm hw]
  | cons hd tl ih =>
    rcases hd with ⟨k, c⟩
    by_cases hk : k = who
    · subst hk
      simp [insertUser, lookupUser, Ne.symm hw]
    · simp [insertUser, hk, lookupUser, ih]

theorem sumBy_insertUser_found (f : UserVaultAccount → Nat)
    {us : List (Nat × UserVaultAccount)} {who : Nat} {a : UserVaultAccount}
    (b : UserVaultAccount) (h : lookupUser us who = some a) :
    sumBy f (insertUser us who b) + f a = sumBy f us + f b := by
  induction us with
  | nil => simp [lookupUser] at h
  | cons hd tl ih =>
    rcases hd with ⟨k, c⟩
    by_cases hk : k = who
    · subst hk
      simp [lookupUser] at h
      subst h
      simp [insertUser, sumBy_cons]
      omega
    · simp [lookupUser, hk] at h
      have := ih h
      simp [insertUser, hk, sumBy_cons]
      omega

theorem sumBy_insertUser_new (f : UserVaultAccount → Nat)
    {us : List (Nat × UserVaultAccount)} {who : Nat}
    (b : UserVaultAccount) (h : lookupUser us who = none) :
    sumBy f (insertUser us who b) = sumBy f us + f b := by
  induction us with
  | nil => simp [insertUser, sumBy_cons, sumBy]
  | cons hd tl ih =>
    rcases hd with ⟨k, c⟩
    by_cases hk : k = who
    · subst hk
      simp [lookupUser] at h
    · simp [lookupUser, hk] at h
      have := ih h
      simp [insertUser, hk, sumBy_cons]
      omega

theorem inv_initialize {st : VaultState} {a : Nat} {st' : VaultState}
    (h : Inv st) (hok : initialize_vault st a = .ok st') : Inv st' := by
  unfold initialize_vault at hok
  split at hok
  · simp at hok
  · next heq =>
    simp only [Except.ok.injEq] at hok
    subst hok
    obtain ⟨hu, ht⟩ := h
    refine ⟨fun p hp => hu p hp, ?_⟩
    have h0 : vaultTotalDeposits st = 0 := by
      simp [vaultTotalDeposits, heq]
    simp only [vaultTotalDeposits, sumDeposited]
    simp only [sumDeposited] at ht
    omega

theorem inv_deposit {st : VaultState} {d amt : Nat} {st' : VaultState}
    (h : Inv st) (hok : deposit st d amt = .ok st') : Inv st' := by
  unfold deposit at hok
  split at hok
  · simp at hok
  · next v heq =>
    simp only [Except.ok.injEq] at hok
    subst hok
    obtain ⟨hu, ht⟩ := h
    constructor
    · intro p hp
      rcases mem_insertUser hp with hp1 | hp1
      · subst hp1
        cases hl : lookupUser st.users d with
        | none => simp [AcctOk, hl]
        | some a =>
          have ha : AcctOk a := hu _ (lookupUser_mem hl)
          unfold AcctOk at ha ⊢
          simp [hl]
          omega
      · exact hu p hp1
    · have htv : vaultTotalDeposits st = v.total_deposits := by
        simp [vaultTotalDeposits, heq]
      cases hl : lookupUser st.users d with
      | none =>
        have hs := sumBy_insertUser_new UserVaultAccount.total_deposited
          ({ (⟨d, 0, 0, 0, 255⟩ : UserVaultAccount) with
              current_balance := 0 + amt, total_deposited := 0 + amt }) hl
        simp only [vaultTotalDeposits, sumDeposited] at *
        simp [hl]
        try simp at hs
        omega
      | some a =>
        have hs := sumBy_insertUser_found UserVaultAccount.total_deposited
          ({ a with current_balance := a.current_balance + amt,
                    total_deposited := a.total_deposited + amt }) hl
        simp only [vaultTotalDeposits, sumDeposited] at *
        simp [hl]
        try simp at hs
        omega

theorem inv_withdraw {st : VaultState} {s n amt r : Nat} {st' : VaultState}
    (h : Inv st) (hok : withdraw st s n amt r = .ok st') : Inv st' := by
  unfold withdraw at hok
  split at hok
  · simp at hok
  · next v heq =>
    split at hok
    · simp at hok
    · next acct hl =>
      split at hok
      · simp at hok
      · split at hok
        · simp at hok
        · next hbal =>
          simp only [Except.ok.injEq] at hok
          subst hok
          obtain ⟨hu, ht⟩ := h
          have ha : AcctOk acct := hu _ (lookupUser_mem hl)
          constructor
          · intro p hp
            rcases mem_insertUser hp with hp1 | hp1
            · subst hp1
              unfold AcctOk at ha ⊢
              simp
              omega
            · exact hu p hp1
          · have hs := sumBy_insertUser_found UserVaultAccount.total_deposited
              ({ acct with current_balance := acct.current_balance - amt,
                           total_withdrawn := acct.total_withdrawn + amt }) hl
            have htv : vaultTotalDeposits st = v.total_deposits := by
              simp [vaultTotalDeposits, heq]
            simp only [vaultTotalDeposits, sumDeposited] at *
            simp at hs
            omega

theorem inv_applyOp {st : VaultState} {op : Op} {st' : VaultState}
    (h : Inv st) (hok : applyOp st op = .ok st') : Inv st' := by
  cases op with
  | initVault a => exact inv_initialize h hok
  | deposit d amt => exact inv_deposit h hok
  | withdraw s n amt r => exact @inv_withdraw st s n amt r st' h hok

theorem inv_step {st : VaultState} (op : Op) (h : Inv st) : Inv (step st op) := by
  unfold step
  split
  · next st' heq => exact inv_applyOp h heq
  · exact h

theorem inv_run {st : VaultState} (ops : List Op) (h : Inv st) :
    Inv (run st ops) := by
  induction ops generalizing st with
  | nil => simpa [run] using h
  | cons op rest ih => simpa [run] using ih (inv_step op h)

theorem inv_initialState : Inv initialState := by
  constructor
  · intro p hp
    simp [initialState] at hp
  · simp [initialState, vaultTotalDeposits, sumDeposited, sumBy]

theorem sumBy_split {us : List (Nat × UserVaultAccount)}
    (h : ∀ p ∈ us, AcctOk p.2) :
    sumBy UserVaultAccount.total_deposited us =
      sumBy UserVaultAccount.current_balance us +
        sumBy UserVaultAccount.total_withdrawn us := by
  induction us with
  | nil => simp [sumBy]
  | cons p rest ih =>
    have h1 : AcctOk p.2 := h p (by simp)
    have h2 := ih (fun q hq => h q (by simp [hq]))
    unfold AcctOk at h1
    simp [sumBy_cons]
    omega


end VaultProgram

namespace VaultProgram

/-- C1: for every sequence of deposit and withdraw requests applied to the
ledger (each committed atomically, starting from the uninitialized state),
after every operation each user's record satisfies
`current_balance = total_deposited - total_withdrawn`.  Any prefix of a
request sequence is itself a request sequence, so the equation holds after
each operation. -/
theorem user_balance_equation (ops : List Op) (who : Nat) :
    balanceOf (run initialState ops) who =
      depositedOf (run initialState ops) who -
        withdrawnOf (run initialState ops) who := by
  obtain ⟨hu, -⟩ := inv_run ops inv_initialState
  cases hl : lookupUser (run initialState ops).users who with
  | none => simp [balanceOf, depositedOf, withdrawnOf, hl]
  | some a =>
    have ha : AcctOk a := hu ⟨who, a⟩ (lookupUser_mem hl)
    unfold AcctOk at ha
    simp [balanceOf, depositedOf, withdrawnOf, hl]
    omega

/-- C2 counterexample: in the ledger `stC2` the only sub-account belongs
to user 2 and holds 1 unit; a withdraw request for 5 units (exceeding that
balance) signed by user 1 fails with `OwnershipConstraintViolation` — a
different error than the `InsufficientUserBalance` the claim predicts —
because the ownership constraint is validated before the balance check. -/
theorem overdraft_error_counterexample :
    balanceOf stC2 2 = 1 ∧
      withdraw stC2 1 2 5 1 = .error .OwnershipConstraintViolation :=
  ⟨rfl, rfl⟩

/-- C2 (amended): a withdraw request whose signer matches the stored
`owner` of the named `UserVaultAccount` and whose amount exceeds
`current_balance` fails with `InsufficientUserBalance` and leaves the
whole ledger (hence `current_balance` and all other fields) unchanged. -/
theorem overdraft_rejected {st : VaultState} {v : Vault}
    {acct : UserVaultAccount} {signer named amount recipient : Nat}
    (hv : st.vault = some v) (hl : lookupUser st.users named = some acct)
    (howner : acct.owner = signer) (hover : acct.current_balance < amount) :
    withdraw st signer named amount recipient = .error .InsufficientUserBalance ∧
      step st (.withdraw signer named amount recipient) = st := by
  constructor
  · simp [withdraw, hv, hl, howner, hover]
  · simp [step, applyOp, withdraw, hv, hl, howner, hover]

/-- Concrete instance of the amended C2 statement. -/
theorem overdraft_rejected_witness :
    withdraw stOne 1 1 9 1 = .error .InsufficientUserBalance ∧
      step stOne (.withdraw 1 1 9 1) = stOne :=
  @overdraft_rejected stOne ⟨0, 5, 255⟩ ⟨1, 5, 5, 0, 255⟩ 1 1 9 1
    rfl rfl rfl (by decide)

/-- C3: a withdraw request whose signer differs from the `owner` stored in
the named `UserVaultAccount` fails with `OwnershipConstraintViolation` for
every amount, and the ledger is left unchanged — the request never
operates on the wrong account. -/
theorem wrong_owner_withdraw_rejected {st : VaultState} {v : Vault}
    {acct : UserVaultAccount} {signer named amount recipient : Nat}
    (hv : st.vault = some v) (hl : lookupUser st.users named = some acct)
    (howner : acct.owner ≠ signer) :
    withdraw st signer named amount recipient =
        .error .OwnershipConstraintViolation ∧
      step st (.withdraw signer named amount recipient) = st := by
  constructor
  · simp [withdraw, hv, hl, howner]
  · simp [step, applyOp, withdraw, hv, hl, howner]

/-- Concrete instance of C3: user 2 signs a withdrawal naming user 1's
sub-account. -/
theorem wrong_owner_withdraw_rejected_witness :
    withdraw stOne 2 1 3 2 = .error .OwnershipConstraintViolation ∧
      step stOne (.withdraw 2 1 3 2) = stOne :=
  @wrong_owner_withdraw_rejected stOne ⟨0, 5, 255⟩ ⟨1, 5, 5, 0, 255⟩ 2 1 3 2
    rfl rfl (by decide)

/-- C4: `Vault.total_deposits` is a lifetime cumulative-deposits counter:
a successful withdrawal never changes it, and at every quiescent point of
every request sequence it equals the sum of `total_deposited` over all
user records. -/
theorem total_deposits_lifetime_counter :
    (∀ st signer named amount recipient st',
        withdraw st signer named amount recipient = .ok st' →
          vaultTotalDeposits st' = vaultTotalDeposits st) ∧
      ∀ ops, vaultTotalDeposits (run initialState ops) =
        sumDeposited (run initialState ops) := by
  constructor
  · intro st signer named amount recipient st' hok
    unfold withdraw at hok
    split at hok
    · simp at hok
    · next v heq =>
      split at hok
      · simp at hok
      · split at hok
        · simp at hok
        · split at hok
          · simp at hok
          · simp only [Except.ok.injEq] at hok
            subst hok
            simp [vaultTotalDeposits, heq]
  · intro ops
    exact (inv_run ops inv_initialState).2

/-- Concrete instance of C4: user 1's successful withdrawal of 2 units
leaves the counter at 5, and the counter matches the deposit sum after the
sequence `opsC5`. -/
theorem total_deposits_lifetime_counter_witness :
    vaultTotalDeposits stOneAfter = vaultTotalDeposits stOne ∧
      vaultTotalDeposits (run initialState opsC5) =
        sumDeposited (run initialState opsC5) :=
  ⟨total_deposits_lifetime_counter.1 stOne 1 1 2 1 stOneAfter rfl,
   total_deposits_lifetime_counter.2 opsC5⟩

/-- C5 counterexample: after the vault is initialized, user 1 deposits 5
units and withdraws 2 of them (sequence `opsC5`), the ledger is quiescent
with `Vault.total_deposits = 5` while the current balances sum to 3, so
the two figures differ. -/
theorem total_deposits_vs_balances_counterexample :
    vaultTotalDeposits (run initialState opsC5) = 5 ∧
      sumBalances (run initialState opsC5) = 3 := by
  constructor <;> rfl

/-- C5 (amended): at every quiescent point `Vault.total_deposits` equals
the sum of `current_balance` over all user records plus the sum of
`total_withdrawn` (equivalently the sum of `total_deposited`); it equals
the bare balance sum only while nothing has been withdrawn. -/
theorem total_deposits_accounting (ops : List Op) :
    vaultTotalDeposits (run initialState ops) =
      sumBalances (run initialState ops) +
        sumWithdrawn (run initialState ops) := by
  obtain ⟨hu, ht⟩ := inv_run ops inv_initialState
  have hsplit := sumBy_split hu
  simp only [sumDeposited, sumBalances, sumWithdrawn] at *
  omega

/-- C6: a zero-amount deposit against an initialized vault succeeds (the
request commits and yields its transaction id) and leaves every user's
`current_balance`, `total_deposited`, `total_withdrawn` and the vault's
`total_deposits` unchanged. -/
theorem zero_deposit_noop {st : VaultState} {v : Vault} (who : Nat)
    (hv : st.vault = some v) :
    (deposit st who 0).isOk = true ∧
      vaultTotalDeposits (step st (.deposit who 0)) = vaultTotalDeposits st ∧
      (∀ w, balanceOf (step st (.deposit who 0)) w = balanceOf st w) ∧
      (∀ w, depositedOf (step st (.deposit who 0)) w = depositedOf st w) ∧
      (∀ w, withdrawnOf (step st (.deposit who 0)) w = withdrawnOf st w) := by
  have hd : deposit st who 0 =
      .ok { vault := some v,
            users := insertUser st.users who
              ((lookupUser st.users who).getD ⟨who, 0, 0, 0, 255⟩),
            custody := st.custody } := by
    simp [deposit, hv]
  have hstep : step st (.deposit who 0) =
      { vault := some v,
        users := insertUser st.users who
          ((lookupUser st.users who).getD ⟨who, 0, 0, 0, 255⟩),
        custody := st.custody } := by
    simp [step, applyOp, hd]
  refine ⟨by rw [hd]; rfl, ?_, ?_, ?_, ?_⟩
  · rw [hstep]
    simp [vaultTotalDeposits, hv]
  · intro w
    rw [hstep]
    by_cases hw : w = who
    · subst hw
      cases hl : lookupUser st.users w <;>
        simp [balanceOf, hl, lookupUser_insertUser_self]
    · simp [balanceOf, lookupUser_insertUser_other _ _ hw]
  · intro w
    rw [hstep]
    by_cases hw : w = who
    · subst hw
      cases hl : lookupUser st.users w <;>
        simp [depositedOf, hl, lookupUser_insertUser_self]
    · simp [depositedOf, lookupUser_insertUser_other _ _ hw]
  · intro w
    rw [hstep]
    by_cases hw : w = who
    · subst hw
      cases hl : lookupUser st.users w <;>
        simp [withdrawnOf, hl, lookupUser_insertUser_self]
    · simp [withdrawnOf, lookupUser_insertUser_other _ _ hw]

/-- Concrete instance of C6: a fresh user 7 deposits 0 units into the
ledger `stOne`. -/
theorem zero_deposit_noop_witness :
    (deposit stOne 7 0).isOk = true ∧
      vaultTotalDeposits (step stOne (.deposit 7 0)) =
        vaultTotalDeposits stOne ∧
      balanceOf (step stOne (.deposit 7 0)) 1 = balanceOf stOne 1 :=
  ⟨(@zero_deposit_noop stOne ⟨0, 5, 255⟩ 7 rfl).1,
   (@zero_deposit_noop stOne ⟨0, 5, 255⟩ 7 rfl).2.1,
   (@zero_deposit_noop stOne ⟨0, 5, 255⟩ 7 rfl).2.2.1 1⟩

/-- C7: calling `initialize_vault` when the vault record already exists
returns the `AlreadyInitialized` error and leaves the whole ledger — in
particular `Vault.total_deposits` and every other vault field —
unchanged. -/
theorem reinitialize_rejected {st : VaultState} {v : Vault} (a : Nat)
    (hv : st.vault = some v) :
    initialize_vault st a = .error .AlreadyInitialized ∧
      step st (.initVault a) = st := by
  constructor
  · simp [initialize_vault, hv]
  · simp [step, applyOp, initialize_vault, hv]

/-- Concrete instance of C7 on the initialized ledger `stOne`. -/
theorem reinitialize_rejected_witness :
    initialize_vault stOne 3 = .error .AlreadyInitialized ∧
      step stOne (.initVault 3) = stOne :=
  @reinitialize_rejected stOne ⟨0, 5, 255⟩ 3 rfl

end VaultProgram

namespace Derivation

/-- C8: program-derived address computation is pure — identical seed list
and program identity always give the identical address-bump pair — and
the per-user derivation (fixed seed `b"user_vault"` plus the owner's
identity bytes) is injective in the owner, so distinct owners always map
to distinct sub-ledger addresses. -/
theorem derivation_pure_and_injective :
    (∀ seeds programId,
        find_program_address seeds programId =
          find_program_address seeds programId) ∧
      ∀ programId o1 o2,
        user_vault_pda o1 programId = user_vault_pda o2 programId →
          o1 = o2 := by
  refine ⟨fun seeds programId => rfl, fun programId o1 o2 h => ?_⟩
  simp only [user_vault_pda, find_program_address, Prod.mk.injEq,
    PdaAddress.mk.injEq, List.flatten_cons, List.flatten_nil,
    List.append_nil, List.append_assoc] at h
  obtain ⟨h1, -⟩ := h
  exact List.append_cancel_right (List.append_cancel_left h1)

/-- Concrete instance of C8 at owner bytes `[3]` and an empty program
identity. -/
theorem derivation_pure_and_injective_witness :
    find_program_address [vaultSeed] [] = find_program_address [vaultSeed] [] ∧
      ([3] : List Nat) = [3] :=
  ⟨derivation_pure_and_injective.1 [vaultSeed] [],
   derivation_pure_and_injective.2 [] [3] [3] rfl⟩

end Derivation

namespace DevnetVaultClient

/-- C9: when the custody ("vault funds") account lookup yields no account,
the client's `get_vault_balance` returns 0 instead of raising. -/
theorem get_vault_balance_missing_account : get_vault_balance none = 0 := rfl

/-- C10: the client's `initialize_vault` returns the transaction id on a
successful call, returns `None` when the underlying call fails with an
error whose message contains "already in use", and re-raises every other
exception unchanged. -/
theorem initialize_vault_skip_behaviour :
    (∀ tx, initialize_vault (.success tx) = .ok (some tx)) ∧
      (∀ m, containsSub alreadyInUseMsg m = true →
        initialize_vault (.failure m) = .ok none) ∧
      ∀ m, containsSub alreadyInUseMsg m = false →
        initialize_vault (.failure m) = .error m := by
  refine ⟨fun tx => rfl, fun m h => ?_, fun m h => ?_⟩
  · simp [initialize_vault, h]
  · simp [initialize_vault, h]

/-- Concrete instances of C10: a successful call, an "already in use"
failure, and an unrelated failure. -/
theorem initialize_vault_skip_behaviour_witness :
    initialize_vault (.success ("5rLtuZ".data)) = .ok (some ("5rLtuZ".data)) ∧
      initialize_vault (.failure ("account already in use by program".data)) =
        .ok none ∧
      initialize_vault (.failure ("connection timed out".data)) =
        .error ("connection timed out".data) :=
  ⟨initialize_vault_skip_behaviour.1 ("5rLtuZ".data),
   initialize_vault_skip_behaviour.2.1
     ("account already in use by program".data) (by decide),
   initialize_vault_skip_behaviour.2.2
     ("connection timed out".data) (by decide)⟩

end DevnetVaultClient
